import Mathlib

/-!
Verification of the haddock3 alanine-scan excerpt: the structure mutator,
the external-scorer invoker, the z-score helper, the per-cluster aggregator
(`scan.py`) and the MPI scheduler (`libmpi.py`), shallowly embedded in Lean.
-/

deriving instance DecidableEq for Except

namespace Haddock

/-- A line of a PDB file as `mutate` observes it: either an `ATOM` record,
carrying the fields the code reads (`line[12:16].strip()` atom name,
`line[17:20].strip()` residue name, `line[21]` chain, `int(line[22:26])`
residue number) plus the remaining bytes of the line, or any other line. -/
inductive PdbLine where
  | atom (atomName : String) (resName : String) (chain : Char)
      (resnum : Int) (rest : String)
  | other (text : String)
  deriving DecidableEq, Repr

/-- `ATOMS_TO_BE_MUTATED = ['C', 'N', 'CA', 'O', 'CB']`. -/
def ATOMS_TO_BE_MUTATED : List String := ["C", "N", "CA", "O", "CB"]

/-- The fixed 20-entry three-letter to one-letter residue table `RES_CODES`. -/
def RES_CODES : List (String × String) :=
  [("CYS", "C"), ("ASP", "D"), ("SER", "S"), ("GLN", "Q"), ("LYS", "K"),
   ("ILE", "I"), ("PRO", "P"), ("THR", "T"), ("PHE", "F"), ("ASN", "N"),
   ("GLY", "G"), ("HIS", "H"), ("LEU", "L"), ("ARG", "R"), ("TRP", "W"),
   ("ALA", "A"), ("VAL", "V"), ("GLU", "E"), ("TYR", "Y"), ("MET", "M")]

/-- Dictionary lookup in an association list (Python `d[k]` succeeding iff
the key is present). -/
def lookupA {α : Type} (m : List (String × α)) (k : String) : Option α :=
  (m.find? (fun p => p.1 = k)).map (·.2)

/-- One iteration of the `mutate` read loop.  State: accumulated output lines
`mut_pdb_l` and the `resname` string variable (initially `""`); non-`ATOM`
lines fall through without being appended, and for the target residue only
atoms in `ATOMS_TO_BE_MUTATED` are appended (with the residue-name columns
replaced by `mut_resname`). -/
def mutateStep (target_chain : Char) (target_resnum : Int)
    (mut_resname : String) (st : List PdbLine × String) (ln : PdbLine) :
    List PdbLine × String :=
  match ln with
  | .other _ => st
  | .atom atomName resName chain resnum rest =>
      if target_chain = chain ∧ target_resnum = resnum then
        let rn := if st.2 = "" then resName else st.2
        if atomName ∈ ATOMS_TO_BE_MUTATED then
          (st.1 ++ [.atom atomName mut_resname chain resnum rest], rn)
        else
          (st.1, rn)
      else
        (st.1 ++ [.atom atomName resName chain resnum rest], st.2)

/-- The whole read loop of `mutate`: the accumulated `mut_pdb_l` and the
final `resname` variable. -/
def mutateFold (target_chain : Char) (target_resnum : Int)
    (mut_resname : String) (lines : List PdbLine) : List PdbLine × String :=
  lines.foldl (mutateStep target_chain target_resnum mut_resname) ([], "")

/-- The lines `mutate` writes to the output file. -/
def mutateLines (target_chain : Char) (target_resnum : Int)
    (mut_resname : String) (lines : List PdbLine) : List PdbLine :=
  (mutateFold target_chain target_resnum mut_resname lines).1

/-- `mutate(pdb_f, target_chain, target_resnum, mut_resname)`: runs the read
loop over the input lines, then builds the mutation id
`RES_CODES[resname] + resnum + RES_CODES[mut_resname]` (a `KeyError`, modelled
as `Except.error`, when either residue name is absent from the table) and the
output file name by suffix substitution on the input name.  Returns the output
file name together with the written lines. -/
def mutate (fname : String) (lines : List PdbLine) (target_chain : Char)
    (target_resnum : Int) (mut_resname : String) :
    Except String (String × List PdbLine) :=
  let st := mutateFold target_chain target_resnum mut_resname lines
  match lookupA RES_CODES st.2, lookupA RES_CODES mut_resname with
  | some o, some m =>
      let mutId := o ++ toString target_resnum ++ m
      .ok (fname.replace ".pdb"
            ("-" ++ String.singleton target_chain ++ "_" ++ mutId ++ ".pdb"),
           st.1)
  | _, _ => .error "KeyError: RES_CODES"

/-- What `mutate` does to a single line, as a `filterMap` kernel: non-`ATOM`
lines are dropped; atoms of the target residue are rewritten when their name
is in `ATOMS_TO_BE_MUTATED` and dropped otherwise; all other atom records pass
through unchanged. -/
def mutateLineSpec (target_chain : Char) (target_resnum : Int)
    (mut_resname : String) : PdbLine → Option PdbLine
  | .other _ => none
  | .atom atomName resName chain resnum rest =>
      if target_chain = chain ∧ target_resnum = resnum then
        if atomName ∈ ATOMS_TO_BE_MUTATED then
          some (.atom atomName mut_resname chain resnum rest)
        else none
      else some (.atom atomName resName chain resnum rest)

/-! ## External scorer invoker (`calc_score`) -/

/-- One line of the scorer's stdout, classified by the two fixed prefixes the
parsing loop tests (`"> HADDOCK-score (emscoring)"` and `"> vdw"`); the
numeric payload extraction (`float(...)`, `split("vdw=")` etc.) is abstracted
as the carried rationals, the textual details being out of the spec's scope. -/
inductive OutLine where
  | scoreLine (score : ℚ)
  | vdwLine (vdw elec desolv bsa : ℚ)
  | otherLine
  deriving DecidableEq, Repr

/-- One iteration of the parsing loop of `calc_score`: a matching line
rebinds the corresponding variables (so the last match wins). -/
def parseStep (st : Option ℚ × Option (ℚ × ℚ × ℚ × ℚ)) (ln : OutLine) :
    Option ℚ × Option (ℚ × ℚ × ℚ × ℚ) :=
  match ln with
  | .scoreLine x => (some x, st.2)
  | .vdwLine a b c d => (st.1, some (a, b, c, d))
  | .otherLine => st

/-- The parsing loop of `calc_score`: scans the stdout lines in order;
variables start unbound (`none`). -/
def parseScoreOut (lines : List OutLine) :
    Option ℚ × Option (ℚ × ℚ × ℚ × ℚ) :=
  lines.foldl parseStep (none, none)

/-- `calc_score(pdb_f, run_dir)`: raises (`Except.error`) when the subprocess
returncode is non-zero; otherwise parses stdout, and the final
`return score, vdw, elec, desolv, bsa` raises `UnboundLocalError` when a
prefix never matched and the variable is still unbound. -/
def calc_score (returncode : Int) (lines : List OutLine) :
    Except String (ℚ × ℚ × ℚ × ℚ × ℚ) :=
  if returncode ≠ 0 then .error "calc_score failed"
  else
    match parseScoreOut lines with
    | (some s, some (a, b, c, d)) => .ok (s, a, b, c, d)
    | _ => .error "UnboundLocalError"

/-- The stdout contains a line starting with `"> HADDOCK-score (emscoring)"`. -/
def hasScoreLine (lines : List OutLine) : Bool :=
  lines.any fun ln => match ln with | .scoreLine _ => true | _ => false

/-- The stdout contains a line starting with `"> vdw"`. -/
def hasVdwLine (lines : List OutLine) : Bool :=
  lines.any fun ln => match ln with | .vdwLine _ _ _ _ => true | _ => false

/-! ## `add_zscores`

The delta column is modelled with exact real values; the pandas `NaN` of a
degenerate standard deviation is modelled by `Option` (`none` = `NaN`).
`df[column].std()` is the pandas default sample standard deviation
(`ddof=1`): `NaN` on a column of length ≤ 1, else
`sqrt (Σ (x - mean)² / (n - 1))`. -/

/-- `df[column].mean()`: sum over length. -/
noncomputable def colMean (xs : List ℝ) : ℝ := xs.sum / xs.length

/-- `df[column].std()` (pandas default `ddof=1`): `NaN` (`none`) when the
column has at most one entry, else the sample standard deviation. -/
noncomputable def colStd (xs : List ℝ) : Option ℝ :=
  if xs.length ≤ 1 then none
  else some (Real.sqrt ((xs.map (fun x => (x - colMean xs) ^ 2)).sum
      / (xs.length - 1)))

/-- `add_zscores(df_scan_clt, column)`: when `std != 0.0` (which in Python is
also true for a `NaN` std, since `NaN != 0.0`), each z-score is
`(x - mean) / std` — `NaN` (`none`) when the std itself is `NaN`; otherwise
(`std == 0.0`) the whole column is set to `0.0`. -/
noncomputable def add_zscores (xs : List ℝ) : List (Option ℝ) :=
  match colStd xs with
  | none => xs.map fun _ => none
  | some s =>
      if s ≠ 0 then xs.map fun x => some ((x - colMean xs) / s)
      else xs.map fun _ => some (0 : ℝ)

/-! ## Cluster aggregation (`alascan_cluster_analysis`)

Python dictionaries are modelled as association lists in insertion order
(new keys appended at the end, as `dict` iteration order is insertion
order); a per-structure scan file is an optional list of rows (`none` =
file absent, on which `pd.read_csv` raises `FileNotFoundError`). -/

/-- A data row of a per-structure scan file, with the columns
`alascan_cluster_analysis` reads. -/
structure ScanRow where
  chain : String
  res : Int
  ori_resname : String
  delta_score : ℚ
  delta_vdw : ℚ
  delta_elec : ℚ
  delta_desolv : ℚ
  delta_bsa : ℚ
  deriving DecidableEq, Repr

/-- A model as the aggregation sees it: nullable cluster id and file name. -/
structure Model where
  clt_id : Option String
  file_name : String
  deriving DecidableEq, Repr

/-- `cl_id = native.clt_id`, with `None` folded to the sentinel `"-"`. -/
def clKey (m : Model) : String := m.clt_id.getD "-"

/-- `alascan_fname = f"scan_{native.file_name}.csv"`. -/
def scanFileName (m : Model) : String := "scan_" ++ m.file_name ++ ".csv"

/-- `ident = f"{chain}-{res}-{ori_resname}"`. -/
def identOf (r : ScanRow) : String :=
  r.chain ++ "-" ++ toString r.res ++ "-" ++ r.ori_resname

/-- The per-ident accumulator entry: running sums of the five delta terms and
the occurrence counter `frac_pr`. -/
structure Acc where
  delta_score : ℚ
  delta_vdw : ℚ
  delta_elec : ℚ
  delta_desolv : ℚ
  delta_bsa : ℚ
  frac_pr : Nat
  deriving DecidableEq, Repr

/-- The accumulator entry created when an ident is first seen. -/
def initAcc (r : ScanRow) : Acc :=
  ⟨r.delta_score, r.delta_vdw, r.delta_elec, r.delta_desolv, r.delta_bsa, 1⟩

/-- The `+=` update of an existing accumulator entry. -/
def addAcc (a : Acc) (r : ScanRow) : Acc :=
  ⟨a.delta_score + r.delta_score, a.delta_vdw + r.delta_vdw,
   a.delta_elec + r.delta_elec, a.delta_desolv + r.delta_desolv,
   a.delta_bsa + r.delta_bsa, a.frac_pr + 1⟩

/-- Processing one scan-file row into the cluster's inner dict
(`clt_scan[cl_id]`): insert `initAcc` on a fresh ident, `addAcc` otherwise. -/
def updIdent (inner : List (String × Acc)) (r : ScanRow) :
    List (String × Acc) :=
  match lookupA inner (identOf r) with
  | none => inner ++ [(identOf r, initAcc r)]
  | some _ =>
      inner.map fun p => if p.1 = identOf r then (p.1, addAcc p.2 r) else p

/-- The aggregation state: `clt_scan` and `cl_pops`. -/
structure AState where
  clt_scan : List (String × List (String × Acc))
  cl_pops : List (String × Nat)
  deriving DecidableEq, Repr

/-- The head of the per-model loop: `if cl_id not in clt_scan:` register an
empty inner dict and population 1, `else` increment the population. -/
def registerModel (st : AState) (cid : String) : AState :=
  match lookupA st.clt_scan cid with
  | none => ⟨st.clt_scan ++ [(cid, [])], st.cl_pops ++ [(cid, 1)]⟩
  | some _ =>
      ⟨st.clt_scan,
       st.cl_pops.map fun p => if p.1 = cid then (p.1, p.2 + 1) else p⟩

/-- The body of the per-model loop: register the cluster, then
`pd.read_csv(alascan_fname, ...)` — which raises `FileNotFoundError` when
the scan file is absent — and fold the file's rows into the cluster. -/
def processModel (files : String → Option (List ScanRow)) (st : AState)
    (m : Model) : Except String AState :=
  let cid := clKey m
  let st1 := registerModel st cid
  match files (scanFileName m) with
  | none => .error ("FileNotFoundError: " ++ scanFileName m)
  | some rows =>
      .ok ⟨st1.clt_scan.map
            (fun p => if p.1 = cid then (p.1, rows.foldl updIdent p.2) else p),
           st1.cl_pops⟩

/-- `str.split("-")` for the single-character separator, on the character
list (Python yields the fields between the separators, empty fields
included). -/
def splitDashAux : List Char → List Char → List String
  | [], acc => [String.mk acc.reverse]
  | c :: cs, acc =>
      if c = '-' then String.mk acc.reverse :: splitDashAux cs []
      else splitDashAux cs (c :: acc)

/-- `ident.split("-")`. -/
def splitDash (s : String) : List String := splitDashAux s.data []

/-- A row of the per-cluster summary (`clt_data`), in the column order
`chain, resnum, resname, full_resname, delta_*, frac_pres`.  Note `resnum`
is the string `ident.split("-")[1]`, not a number. -/
structure OutRow where
  chain : String
  resnum : String
  resname : String
  full_resname : String
  delta_score : ℚ
  delta_vdw : ℚ
  delta_elec : ℚ
  delta_desolv : ℚ
  delta_bsa : ℚ
  frac_pres : ℚ
  deriving DecidableEq, Repr

/-- Building one `clt_data` row from a `clt_scan[cl_id]` entry: the chain,
residue number and residue name are recovered by splitting the ident string;
each delta sum is divided by the occurrence counter `frac_pr`, and
`frac_pres` is `frac_pr / cl_pops[cl_id]`. -/
def mkOutRow (pop : Nat) (p : String × Acc) : OutRow :=
  let parts := splitDash p.1
  { chain := parts.getD 0 ""
    resnum := parts.getD 1 ""
    resname := parts.getD 2 ""
    full_resname := p.1
    delta_score := p.2.delta_score / (p.2.frac_pr : ℚ)
    delta_vdw := p.2.delta_vdw / (p.2.frac_pr : ℚ)
    delta_elec := p.2.delta_elec / (p.2.frac_pr : ℚ)
    delta_desolv := p.2.delta_desolv / (p.2.frac_pr : ℚ)
    delta_bsa := p.2.delta_bsa / (p.2.frac_pr : ℚ)
    frac_pres := (p.2.frac_pr : ℚ) / (pop : ℚ) }

/-- Lexicographic `≤` on character lists, by Unicode code point, as Python
compares strings. -/
def charsLe : List Char → List Char → Bool
  | [], _ => true
  | _ :: _, [] => false
  | a :: as, b :: bs =>
      if a < b then true else if b < a then false else charsLe as bs

/-- String `≤` by code points (the comparison pandas applies to an
object-dtype column). -/
def strLe (a b : String) : Bool := charsLe a.data b.data

/-- The key order of `df_scan_clt.sort_values(by=['chain', 'resnum'])`:
lexicographic on the pair of strings — in particular `resnum` is compared as
a string. -/
def rowLe (a b : OutRow) : Prop :=
  if a.chain = b.chain then strLe a.resnum b.resnum = true
  else strLe a.chain b.chain = true

instance : DecidableRel rowLe := fun a b => by
  unfold rowLe; infer_instance

/-- `sort_values(by=['chain', 'resnum'])`: a stable sort on the two string
keys (pandas multi-key sorting is the stable `numpy.lexsort`), modelled with
the stable insertion sort. -/
def sortRows (rows : List OutRow) : List OutRow := rows.insertionSort rowLe

/-- One per-cluster summary: the cluster id, the file
`scan_clt_{cl_id}.csv` it is written to, and its sorted rows. -/
structure ClusterOut where
  cl_id : String
  filename : String
  rows : List OutRow
  deriving DecidableEq, Repr

/-- The output phase of `alascan_cluster_analysis`: per cluster in insertion
order, the summary file with its averaged, sorted rows. -/
def outputOf (st : AState) : List ClusterOut :=
  st.clt_scan.map fun p =>
    ⟨p.1, "scan_clt_" ++ p.1 ++ ".csv",
     sortRows (p.2.map (mkOutRow ((lookupA st.cl_pops p.1).getD 0)))⟩

/-- `alascan_cluster_analysis(models)`: folds the per-model loop over the
model list (propagating the `FileNotFoundError` of a missing scan file),
then, per cluster in insertion order, builds the averaged rows and sorts
them. -/
def alascan_cluster_analysis (files : String → Option (List ScanRow))
    (models : List Model) : Except String (List ClusterOut) :=
  (models.foldlM (processModel files) ⟨[], []⟩).map outputOf

/-! Spec-side quantities the aggregation theorems compare against. -/

/-- The models belonging to a cluster. -/
def clusterMembers (models : List Model) (cid : String) : List Model :=
  models.filter fun m => clKey m = cid

/-- All scan-file rows of a cluster's members, in model order (absent files
contributing nothing; under a successful run every file is present). -/
def clusterRows (files : String → Option (List ScanRow))
    (models : List Model) (cid : String) : List ScanRow :=
  (clusterMembers models cid).flatMap fun m =>
    (files (scanFileName m)).getD []

/-- The occurrences of one ident among a cluster's rows. -/
def identOcc (files : String → Option (List ScanRow)) (models : List Model)
    (cid ident : String) : List ScanRow :=
  (clusterRows files models cid).filter fun r => identOf r = ident

/-! ## `Scan.run` (one model) -/

/-- The five energy terms `calc_score` returns. -/
structure Energies where
  score : ℚ
  vdw : ℚ
  elec : ℚ
  desolv : ℚ
  bsa : ℚ
  deriving DecidableEq, Repr

/-- A full 15-column row of the per-structure scan file written by
`Scan.run`. -/
structure FullRow where
  chain : String
  res : Int
  ori_resname : String
  end_resname : String
  score : ℚ
  vdw : ℚ
  elec : ℚ
  desolv : ℚ
  bsa : ℚ
  delta_ori_score : ℚ
  delta_score : ℚ
  delta_vdw : ℚ
  delta_elec : ℚ
  delta_desolv : ℚ
  delta_bsa : ℚ
  deriving DecidableEq, Repr

/-- The interface as `CAPRI.identify_interface` returns it: per chain, the
interface residue numbers; flattened into the order the two nested `for`
loops of `Scan.run` visit. -/
def interfacePairs (interface : List (String × List Int)) :
    List (String × Int) :=
  interface.flatMap fun p => p.2.map fun r => (p.1, r)

/-- The observable effects of `Scan.run` on one model: the appended
`scan_data` rows, the residues passed to `mutate`, the number of
`calc_score` invocations, and, per visited residue, the five energy terms the
loop body bound (`c_score .. c_bsa`). -/
structure ScanEffects where
  rows : List FullRow
  mutated : List (String × Int)
  scorerCalls : Nat
  bound : List (String × Int × Energies)
  deriving DecidableEq, Repr

/-- The row appended for a mutated residue: the mutant terms and their
deltas against the native rescoring and the workflow-supplied original
score. -/
def mkFullRow (scan_res : String) (ori_score : ℚ) (native : Energies)
    (cr : String × Int) (ori_resname : String) (me : Energies) : FullRow :=
  ⟨cr.1, cr.2, ori_resname, scan_res, me.score, me.vdw, me.elec, me.desolv,
   me.bsa, me.score - ori_score, me.score - native.score,
   me.vdw - native.vdw, me.elec - native.elec, me.desolv - native.desolv,
   me.bsa - native.bsa⟩

/-- The body of the per-residue loop: when the original residue name equals
the scan target, the native terms are re-bound (`c_* = n_*`) and nothing
else happens — no `mutate`, no `calc_score`, no row; otherwise the residue
is mutated, rescored (one `calc_score` call), and a row is appended. -/
def scanResidueStep (scan_res : String) (ori_score : ℚ) (native : Energies)
    (resnameOf : String → Int → String)
    (scoreMutant : String → Int → Energies)
    (eff : ScanEffects) (cr : String × Int) : ScanEffects :=
  let ori_resname := resnameOf cr.1 cr.2
  if ori_resname = scan_res then
    { eff with bound := eff.bound ++ [(cr.1, cr.2, native)] }
  else
    let me := scoreMutant cr.1 cr.2
    { rows := eff.rows ++ [mkFullRow scan_res ori_score native cr ori_resname me]
      mutated := eff.mutated ++ [cr]
      scorerCalls := eff.scorerCalls + 1
      bound := eff.bound ++ [(cr.1, cr.2, me)] }

/-- `Scan.run` on one native model: one `calc_score` call on the native
structure, then the per-residue loop over the flattened interface.
`resnameOf` is the `resname_dict` lookup and `scoreMutant` the rescoring of
the mutated structure. -/
def scanOneModel (scan_res : String) (ori_score : ℚ) (native : Energies)
    (resnameOf : String → Int → String)
    (scoreMutant : String → Int → Energies)
    (interface : List (String × List Int)) : ScanEffects :=
  (interfacePairs interface).foldl
    (scanResidueStep scan_res ori_score native resnameOf scoreMutant)
    ⟨[], [], 1, []⟩

/-! ## `MPIScheduler.run` (`libmpi.py`) -/

/-- The launcher command built by `MPIScheduler.run`: `mpirun` carries the
explicit `-np {self.ncores}` count (`ncores` as stored, an `Optional[int]`),
`srun` no count. -/
inductive MpiCmd where
  | mpirunCmd (np : Option Nat) (pklTasks : String)
  | srunCmd (pklTasks : String)
  deriving DecidableEq, Repr

/-- The outcome of `MPIScheduler.run`: either the driver subprocess ran with
empty stderr and the method returned, or `sys.exit()` was reached.  A bare
`sys.exit()` raises `SystemExit(None)`, which terminates the process with
exit status 0; the carried `Nat` is that process exit status. -/
inductive MpiOutcome where
  | finished (cmd : MpiCmd)
  | exitNoLauncher (status : Nat)
  | exitStderr (cmd : MpiCmd) (status : Nat)
  deriving DecidableEq, Repr

/-- The environment `MPIScheduler.run` probes: whether `find_executable`
finds `mpirun` / `srun`, and the stderr the driver subprocess would
produce. -/
structure MpiEnv where
  mpirunFound : Bool
  srunFound : Bool
  driverStderr : String
  deriving Repr

/-- `MPIScheduler.run`: probes `mpirun` then `srun`; with neither found it
logs and calls bare `sys.exit()` before launching anything; otherwise it
runs the chosen command and calls bare `sys.exit()` if the driver's stderr
is non-empty. -/
def mpiRun (env : MpiEnv) (ncores : Option Nat) (pklTasks : String) :
    MpiOutcome :=
  let cmd? : Option MpiCmd :=
    if env.mpirunFound then some (.mpirunCmd ncores pklTasks)
    else if env.srunFound then some (.srunCmd pklTasks)
    else none
  match cmd? with
  | none => .exitNoLauncher 0
  | some c => if env.driverStderr ≠ "" then .exitStderr c 0 else .finished c

/-- The launcher command an outcome launched (`none`: `sys.exit()` was
reached before any subprocess, so no job was executed). -/
def launchedCmd : MpiOutcome → Option MpiCmd
  | .finished c => some c
  | .exitStderr c _ => some c
  | .exitNoLauncher _ => none

/-! Auxiliary notions for the aggregation proof. -/

/-- Folding one row into an optional accumulator entry: `initAcc` when the
ident was unseen, `addAcc` otherwise (the two branches of the ident
update). -/
def pushRow (a : Option Acc) (r : ScanRow) : Option Acc :=
  match a with
  | none => some (initAcc r)
  | some x => some (addAcc x r)

/-- The accumulator entry a list of occurrences produces (`none` when there
is no occurrence). -/
def accOf (occ : List ScanRow) : Option Acc := occ.foldl pushRow none

/-- The `cl_pops` dictionary holds, per cluster, exactly the number of
processed member models. -/
def popsSpec (ms : List Model) (pops : List (String × Nat)) : Prop :=
  ∀ cid, lookupA pops cid =
    if (clusterMembers ms cid).length = 0 then none
    else some (clusterMembers ms cid).length

/-- The `clt_scan` dictionary has distinct cluster keys, a cluster entry
exactly for the clusters with a processed member, and per cluster an inner
dict with distinct ident keys whose entries accumulate exactly that ident's
occurrences among the processed members' rows. -/
def scanSpec (files : String → Option (List ScanRow)) (ms : List Model)
    (scan : List (String × List (String × Acc))) : Prop :=
  (scan.map Prod.fst).Nodup ∧
  (∀ cid, (lookupA scan cid).isSome ↔ clusterMembers ms cid ≠ []) ∧
  (∀ cid inner, lookupA scan cid = some inner →
    (inner.map Prod.fst).Nodup ∧
    ∀ ident, lookupA inner ident = accOf (identOcc files ms cid ident))

/-! ## Theorems: the structure mutator -/

/-- The read loop of `mutate` is a per-line `filterMap`: the `resname`
state variable influences only the mutation id, never which lines are
written. -/
theorem mutateFold_fst_eq (tc : Char) (trn : Int) (mrn : String) :
    ∀ (lines : List PdbLine) (acc : List PdbLine) (rn : String),
      (lines.foldl (mutateStep tc trn mrn) (acc, rn)).1 =
        acc ++ lines.filterMap (mutateLineSpec tc trn mrn) := by
  intro lines
  induction lines with
  | nil => intro acc rn; simp
  | cons ln rest ih =>
      intro acc rn
      cases ln with
      | other t => simp [mutateStep, mutateLineSpec, ih]
      | atom an rsn ch num r =>
          by_cases htgt : tc = ch ∧ trn = num
          · obtain ⟨h1, h2⟩ := htgt
            subst h1
            subst h2
            by_cases hatom : an ∈ ATOMS_TO_BE_MUTATED
            · simp [mutateStep, mutateLineSpec, hatom, ih]
            · simp [mutateStep, mutateLineSpec, hatom, ih]
          · simp [mutateStep, mutateLineSpec, htgt, ih]

/-- C3 (amended): the lines `mutate` writes are exactly the input's `ATOM`
records, with those of the requested chain/residue whose atom name is in
`ATOMS_TO_BE_MUTATED` rewritten to the target residue name, those of the
requested residue with any other atom name omitted, and all `ATOM` records
of other residues passed through unchanged (non-`ATOM` lines are omitted as
well). -/
theorem mutate_rewrites_and_filters (fname : String) (lines : List PdbLine)
    (tc : Char) (trn : Int) (mrn : String) (out : String × List PdbLine) :
    mutateLines tc trn mrn lines =
      lines.filterMap (mutateLineSpec tc trn mrn) ∧
    (mutate fname lines tc trn mrn = .ok out →
      out.2 = lines.filterMap (mutateLineSpec tc trn mrn)) := by
  have hfold : mutateLines tc trn mrn lines =
      lines.filterMap (mutateLineSpec tc trn mrn) := by
    unfold mutateLines mutateFold
    simpa using mutateFold_fst_eq tc trn mrn lines [] ""
  refine ⟨hfold, fun h => ?_⟩
  unfold mutate at h
  rcases h1 : lookupA RES_CODES (mutateFold tc trn mrn lines).2 with _ | o <;>
    rcases h2 : lookupA RES_CODES mrn with _ | m <;>
      simp [h1, h2] at h
  subst h
  exact hfold

/-- C3 (counterexample): mutating residue `A:12` to `ALA` drops the `CG`
atom record of that residue from the output instead of passing it through
byte-identically — the output holds only the rewritten `N` atom of residue
12 and the untouched atom of residue 11. -/
theorem mutate_drops_unlisted_atom_of_target :
    (mutate "m.pdb"
        [.atom "N" "LYS" 'A' 12 "n", .atom "CG" "LYS" 'A' 12 "g",
         .atom "CA" "LYS" 'A' 11 "o"] 'A' 12 "ALA").map Prod.snd =
      .ok [.atom "N" "ALA" 'A' 12 "n", .atom "CA" "LYS" 'A' 11 "o"] ∧
    PdbLine.atom "CG" "LYS" 'A' 12 "g" ∉
      [PdbLine.atom "N" "ALA" 'A' 12 "n",
       PdbLine.atom "CA" "LYS" 'A' 11 "o"] :=
  ⟨by decide, by decide⟩

/-! ## Theorems: the external scorer invoker -/

/-- The first component of the parse state is bound iff it was bound before
or a score-prefix line occurs. -/
theorem foldl_parseStep_fst (lines : List OutLine) :
    ∀ st : Option ℚ × Option (ℚ × ℚ × ℚ × ℚ),
      (lines.foldl parseStep st).1.isSome =
        (st.1.isSome || hasScoreLine lines) := by
  induction lines with
  | nil => intro st; simp [hasScoreLine]
  | cons ln rest ih =>
      intro st
      cases ln <;> simp [parseStep, hasScoreLine, List.any_cons, ih]

/-- The second component of the parse state is bound iff it was bound before
or a vdw-prefix line occurs. -/
theorem foldl_parseStep_snd (lines : List OutLine) :
    ∀ st : Option ℚ × Option (ℚ × ℚ × ℚ × ℚ),
      (lines.foldl parseStep st).2.isSome =
        (st.2.isSome || hasVdwLine lines) := by
  induction lines with
  | nil => intro st; simp [hasVdwLine]
  | cons ln rest ih =>
      intro st
      cases ln <;> simp [parseStep, hasVdwLine, List.any_cons, ih]

/-- C6: `calc_score` returns the five energy terms exactly when the process
exit code is zero and the stdout holds both fixed report-line prefixes; a
non-zero exit code raises (`"calc_score failed"`), and with exit code zero a
report missing either prefix raises at the final `return` (the
`UnboundLocalError` of the unbound variable) instead of returning any
defaulted or stale term. -/
theorem calc_score_only_on_complete_report (rc : Int) (lines : List OutLine) :
    ((∃ t, calc_score rc lines = .ok t) ↔
        rc = 0 ∧ hasScoreLine lines = true ∧ hasVdwLine lines = true) ∧
    (rc ≠ 0 → calc_score rc lines = .error "calc_score failed") ∧
    (rc = 0 → ¬(hasScoreLine lines = true ∧ hasVdwLine lines = true) →
      calc_score rc lines = .error "UnboundLocalError") := by
  have hfst : (parseScoreOut lines).1.isSome = hasScoreLine lines := by
    simpa using foldl_parseStep_fst lines (none, none)
  have hsnd : (parseScoreOut lines).2.isSome = hasVdwLine lines := by
    simpa using foldl_parseStep_snd lines (none, none)
  by_cases hrc : rc = 0
  · subst hrc
    rcases hp : parseScoreOut lines with ⟨o1, o2⟩
    rw [hp] at hfst hsnd
    rcases o1 with _ | s <;> rcases o2 with _ | ⟨a, b, c, d⟩ <;>
      simp_all [calc_score]
  · simp [calc_score, hrc]

/-! ## Theorems: `add_zscores` -/

/-- The mean of a non-empty constant column is the constant. -/
theorem colMean_const (c : ℝ) (xs : List ℝ) (hne : xs ≠ [])
    (hall : ∀ x ∈ xs, x = c) : colMean xs = c := by
  have hsum : xs.sum = xs.length • c := List.sum_eq_card_nsmul xs c hall
  have hlen : (xs.length : ℝ) ≠ 0 :=
    Nat.cast_ne_zero.mpr (Nat.pos_iff_ne_zero.mp (List.length_pos.mpr hne))
  unfold colMean
  rw [hsum, nsmul_eq_mul]
  field_simp

/-- On a constant column of length at least two, the sample standard
deviation is exactly zero (not `NaN`). -/
theorem colStd_const (c : ℝ) (xs : List ℝ) (hlen : 2 ≤ xs.length)
    (hall : ∀ x ∈ xs, x = c) : colStd xs = some 0 := by
  have hne : xs ≠ [] := by
    intro h
    rw [h] at hlen
    simp at hlen
  have hmean : colMean xs = c := colMean_const c xs hne hall
  have hdev : (xs.map fun x => (x - colMean xs) ^ 2).sum = 0 := by
    apply List.sum_eq_zero
    intro y hy
    rcases List.mem_map.mp hy with ⟨x, hx, rfl⟩
    rw [hall x hx, hmean]
    ring
  unfold colStd
  rw [if_neg (by omega), hdev, zero_div, Real.sqrt_zero]

/-- C2 (amended): on a delta column of length at least two with all-equal
values, `add_zscores` produces the all-zero z-score column (the sample
standard deviation is exactly zero, so the zero-variance branch fires). -/
theorem add_zscores_allzero_of_const (c : ℝ) (xs : List ℝ)
    (hlen : 2 ≤ xs.length) (hall : ∀ x ∈ xs, x = c) :
    add_zscores xs = xs.map fun _ => some (0 : ℝ) := by
  have hstd : colStd xs = some 0 := colStd_const c xs hlen hall
  simp [add_zscores, hstd]

/-- C2 (witness): the constant column `[3, 3]` gets the all-zero z-score
column. -/
theorem add_zscores_allzero_witness :
    add_zscores [(3 : ℝ), 3] = [some 0, some 0] :=
  add_zscores_allzero_of_const 3 [3, 3] (by simp)
    (by
      intro x hx
      rcases List.mem_cons.mp hx with h | h
      · exact h
      · simpa using h)

/-- C2 (counterexample): on the all-equal column of length one, the pandas
sample standard deviation (`ddof=1`) is `NaN`, `NaN != 0.0` is true, and the
division propagates `NaN` into every z-score — the column is `[NaN]`, not
all zeros. -/
theorem add_zscores_single_nan :
    add_zscores [(2 : ℝ)] = [none] ∧
    ([none] : List (Option ℝ)) ≠ [some 0] := by
  constructor
  · have h1 : colStd [(2 : ℝ)] = none := by simp [colStd]
    simp [add_zscores, h1]
  · simp

/-! ## Theorems: cluster aggregation, concrete evaluations -/

/-- C4 (code behaviour): with one unclustered model whose scan file holds
residues 2, 10 and 1 of chain `A`, the rows of the written cluster summary
come out in the order 1, 10, 2 — `resnum` is the string `ident.split("-")[1]`
and `sort_values` compares it lexicographically, not numerically. -/
theorem alascan_sort_is_lexicographic :
    (alascan_cluster_analysis
        (fun n =>
          if n = "scan_m.csv" then
            some [⟨"A", 2, "ALA", 0, 0, 0, 0, 0⟩,
                  ⟨"A", 10, "ALA", 0, 0, 0, 0, 0⟩,
                  ⟨"A", 1, "ALA", 0, 0, 0, 0, 0⟩]
          else none)
        [⟨none, "m"⟩]).map
        (fun out => out.map fun co => co.rows.map (·.resnum)) =
      .ok [["1", "10", "2"]] := by decide

/-- C5 (code behaviour): with a single model whose per-structure scan file is
absent, `alascan_cluster_analysis` propagates the `FileNotFoundError` of
`pd.read_csv` — the analysis aborts instead of excluding the model. -/
theorem alascan_missing_file_raises :
    alascan_cluster_analysis (fun _ => none) [⟨none, "x"⟩] =
      .error "FileNotFoundError: scan_x.csv" := by decide

/-! ## Theorems: the MPI scheduler -/

/-- C7: `MPIScheduler.run` probes `mpirun` first and launches it with the
explicit `-np ncores` count; with `mpirun` absent it probes `srun` and
launches it without a count; with neither found it terminates via
`sys.exit()` before any job is executed (no launcher command is ever
run). -/
theorem mpiRun_launcher_precedence (env : MpiEnv) (ncores : Option Nat)
    (pkl : String) :
    (env.mpirunFound = true →
      launchedCmd (mpiRun env ncores pkl) = some (.mpirunCmd ncores pkl)) ∧
    (env.mpirunFound = false → env.srunFound = true →
      launchedCmd (mpiRun env ncores pkl) = some (.srunCmd pkl)) ∧
    (env.mpirunFound = false → env.srunFound = false →
      mpiRun env ncores pkl = .exitNoLauncher 0 ∧
        launchedCmd (mpiRun env ncores pkl) = none) := by
  rcases env with ⟨m, s, err⟩
  by_cases herr : err ≠ "" <;> cases m <;> cases s <;>
    simp_all [mpiRun, launchedCmd]

/-- C10: on both fatal paths of `MPIScheduler.run` — no launcher executable
found, and non-empty driver stderr — the bare `sys.exit()` terminates the
process with exit status 0. -/
theorem mpiRun_fatal_paths_exit_zero (env : MpiEnv) (ncores : Option Nat)
    (pkl : String) :
    (env.mpirunFound = false → env.srunFound = false →
      mpiRun env ncores pkl = .exitNoLauncher 0) ∧
    (env.mpirunFound = true → env.driverStderr ≠ "" →
      mpiRun env ncores pkl = .exitStderr (.mpirunCmd ncores pkl) 0) ∧
    (env.mpirunFound = false → env.srunFound = true →
      env.driverStderr ≠ "" →
      mpiRun env ncores pkl = .exitStderr (.srunCmd pkl) 0) := by
  rcases env with ⟨m, s, err⟩
  cases m <;> cases s <;> simp_all [mpiRun]

/-! ## Theorems: `Scan.run` -/

/-- Characterization of the per-residue loop of `Scan.run`: the rows and the
mutation list come from the residues whose original name differs from the
scan target, one `calc_score` call per such residue is added, and the bound
energy terms are the native ones exactly on the same-type residues. -/
theorem scanFold_eq (sr : String) (os : ℚ) (nat : Energies)
    (rof : String → Int → String) (smu : String → Int → Energies) :
    ∀ (pairs : List (String × Int)) (eff : ScanEffects),
      pairs.foldl (scanResidueStep sr os nat rof smu) eff =
        ⟨eff.rows ++ ((pairs.filter fun cr => rof cr.1 cr.2 ≠ sr).map
            fun cr => mkFullRow sr os nat cr (rof cr.1 cr.2) (smu cr.1 cr.2)),
         eff.mutated ++ (pairs.filter fun cr => rof cr.1 cr.2 ≠ sr),
         eff.scorerCalls + (pairs.filter fun cr => rof cr.1 cr.2 ≠ sr).length,
         eff.bound ++ (pairs.map fun cr =>
           (cr.1, cr.2, if rof cr.1 cr.2 = sr then nat else smu cr.1 cr.2))⟩ := by
  intro pairs
  induction pairs with
  | nil => intro eff; simp
  | cons cr rest ih =>
      intro eff
      by_cases h : rof cr.1 cr.2 = sr
      · simp [scanResidueStep, h, ih, List.filter_cons]
      · simp [scanResidueStep, h, ih, List.filter_cons, Nat.add_assoc,
          Nat.add_comm, Nat.add_left_comm]

/-- C8: for an interface residue whose original type equals the scan target,
`Scan.run` binds the five native rescoring terms for that residue and
performs no mutation and no extra `calc_score` call — the total `calc_score`
count is one (the native rescoring) plus one per differing residue only. -/
theorem scan_same_type_reuses_native (sr : String) (os : ℚ) (nat : Energies)
    (rof : String → Int → String) (smu : String → Int → Energies)
    (interface : List (String × List Int)) :
    (scanOneModel sr os nat rof smu interface).scorerCalls =
      1 + ((interfacePairs interface).filter
            fun cr => rof cr.1 cr.2 ≠ sr).length ∧
    (∀ cr ∈ interfacePairs interface, rof cr.1 cr.2 = sr →
      (cr.1, cr.2, nat) ∈ (scanOneModel sr os nat rof smu interface).bound ∧
      cr ∉ (scanOneModel sr os nat rof smu interface).mutated) := by
  have hfold := scanFold_eq sr os nat rof smu (interfacePairs interface)
    ⟨[], [], 1, []⟩
  unfold scanOneModel
  rw [hfold]
  refine ⟨by simp [Nat.add_comm], fun cr hcr hsr => ⟨?_, ?_⟩⟩
  · simp only [List.nil_append]
    exact List.mem_map.mpr ⟨cr, hcr, by simp [hsr]⟩
  · simp only [List.nil_append, List.mem_filter]
    rintro ⟨-, hpred⟩
    simp [hsr] at hpred

/-- C9: `Scan.run` appends a result row only for interface residues whose
original type differs from the scan target: the row list is exactly the
mapped filter of differing residues, every written row's original residue
name differs from the target, the file can hold fewer rows than there are
interface residues, and a same-type residue contributes no row at all. -/
theorem scan_rows_only_for_differing (sr : String) (os : ℚ) (nat : Energies)
    (rof : String → Int → String) (smu : String → Int → Energies)
    (interface : List (String × List Int)) :
    (scanOneModel sr os nat rof smu interface).rows =
      ((interfacePairs interface).filter fun cr => rof cr.1 cr.2 ≠ sr).map
        (fun cr => mkFullRow sr os nat cr (rof cr.1 cr.2) (smu cr.1 cr.2)) ∧
    (∀ row ∈ (scanOneModel sr os nat rof smu interface).rows,
      row.ori_resname ≠ sr) ∧
    (scanOneModel sr os nat rof smu interface).rows.length ≤
      (interfacePairs interface).length ∧
    (∀ cr ∈ interfacePairs interface, rof cr.1 cr.2 = sr →
      ∀ row ∈ (scanOneModel sr os nat rof smu interface).rows,
        ¬(row.chain = cr.1 ∧ row.res = cr.2)) := by
  have hfold := scanFold_eq sr os nat rof smu (interfacePairs interface)
    ⟨[], [], 1, []⟩
  unfold scanOneModel
  rw [hfold]
  simp only [List.nil_append]
  refine ⟨by simp, fun row hrow => ?_, ?_, fun cr hcr hsr row hrow => ?_⟩
  · rcases List.mem_map.mp hrow with ⟨cr, hmem, hrc⟩
    rcases List.mem_filter.mp hmem with ⟨-, hpred⟩
    rw [← hrc]
    simpa [mkFullRow] using of_decide_eq_true hpred
  · calc (((interfacePairs interface).filter
          fun cr => rof cr.1 cr.2 ≠ sr).map
            fun cr => mkFullRow sr os nat cr (rof cr.1 cr.2)
              (smu cr.1 cr.2)).length
        = ((interfacePairs interface).filter
            fun cr => rof cr.1 cr.2 ≠ sr).length := List.length_map _ _
      _ ≤ (interfacePairs interface).length := List.length_filter_le _ _
  · rcases List.mem_map.mp hrow with ⟨cr', hmem, hrc⟩
    rcases List.mem_filter.mp hmem with ⟨-, hpred⟩
    rintro ⟨hch, hres⟩
    rw [← hrc] at hch hres
    simp only [mkFullRow] at hch hres
    have : rof cr.1 cr.2 ≠ sr := by
      rw [← hch, ← hres]
      exact of_decide_eq_true hpred
    exact this hsr

/-! ## Theorems: cluster aggregation, the averaging invariant -/

/-- Lookup in a one-longer association list. -/
theorem lookupA_cons {α : Type} (p : String × α) (l : List (String × α))
    (k : String) :
    lookupA (p :: l) k = if p.1 = k then some p.2 else lookupA l k := by
  by_cases h : p.1 = k <;> simp [lookupA, List.find?_cons, h]

/-- Lookup distributes over append, first list first. -/
theorem lookupA_append {α : Type} (l1 l2 : List (String × α)) (k : String) :
    lookupA (l1 ++ l2) k = (lookupA l1 k).or (lookupA l2 k) := by
  induction l1 with
  | nil => simp [lookupA]
  | cons p l ih =>
      by_cases h : p.1 = k <;> simp [lookupA_cons, h, ih]

/-- Lookup after a value-update at one key (the update keeps every key). -/
theorem lookupA_map_update {α : Type} (l : List (String × α)) (k : String)
    (g : α → α) (j : String) :
    lookupA (l.map fun p => if p.1 = k then (p.1, g p.2) else p) j =
      if j = k then (lookupA l j).map g else lookupA l j := by
  induction l with
  | nil => by_cases h : j = k <;> simp [lookupA, h]
  | cons p l ih =>
      have hkey : (if p.1 = k then (p.1, g p.2) else p).1 = p.1 := by
        by_cases hp : p.1 = k <;> simp [hp]
      have hval : (if p.1 = k then (p.1, g p.2) else p).2 =
          if p.1 = k then g p.2 else p.2 := by
        by_cases hp : p.1 = k <;> simp [hp]
      simp only [List.map_cons, lookupA_cons, hkey, hval, ih]
      by_cases hj : p.1 = j <;> by_cases hp : p.1 = k <;>
        by_cases hjk : j = k <;> simp_all

/-- A lookup misses exactly when the key is absent. -/
theorem lookupA_eq_none_iff {α : Type} (l : List (String × α)) (k : String) :
    lookupA l k = none ↔ k ∉ l.map Prod.fst := by
  induction l with
  | nil => simp [lookupA]
  | cons p l ih =>
      by_cases h : p.1 = k <;> simp [lookupA_cons, h, ih, eq_comm]
      exact fun _ he => h he.symm

/-- With distinct keys, every entry is what lookup finds for its key. -/
theorem lookupA_of_mem_nodup {α : Type} (l : List (String × α))
    (hnd : (l.map Prod.fst).Nodup) (p : String × α) (hp : p ∈ l) :
    lookupA l p.1 = some p.2 := by
  induction l with
  | nil => simp at hp
  | cons q l ih =>
      rcases List.mem_cons.mp hp with h | h
      · subst h
        simp [lookupA_cons]
      · have hq : q.1 ≠ p.1 := by
          intro he
          have : q.1 ∈ l.map Prod.fst := he ▸ List.mem_map_of_mem Prod.fst h
          exact (List.nodup_cons.mp hnd).1 this
        rw [lookupA_cons, if_neg hq]
        exact ih (List.nodup_cons.mp hnd).2 h

/-- `accOf` over an appended occurrence list continues the fold. -/
theorem accOf_append (xs ys : List ScanRow) :
    accOf (xs ++ ys) = ys.foldl pushRow (accOf xs) := by
  unfold accOf
  exact List.foldl_append _ _ xs ys

/-- Folding occurrences onto an existing entry sums every delta term and
counts the occurrences. -/
theorem foldl_pushRow_some (occ : List ScanRow) :
    ∀ a0 : Acc, occ.foldl pushRow (some a0) =
      some ⟨a0.delta_score + (occ.map (·.delta_score)).sum,
            a0.delta_vdw + (occ.map (·.delta_vdw)).sum,
            a0.delta_elec + (occ.map (·.delta_elec)).sum,
            a0.delta_desolv + (occ.map (·.delta_desolv)).sum,
            a0.delta_bsa + (occ.map (·.delta_bsa)).sum,
            a0.frac_pr + occ.length⟩ := by
  induction occ with
  | nil => intro a0; simp
  | cons r rs ih =>
      intro a0
      simp [pushRow, ih, addAcc, add_assoc, Nat.add_assoc, Nat.add_comm,
        Nat.add_left_comm]

/-- The accumulator entry of a non-empty occurrence list: each delta summed
over the occurrences, `frac_pr` their count. -/
theorem accOf_of_ne_nil (occ : List ScanRow) (hne : occ ≠ []) :
    accOf occ =
      some ⟨(occ.map (·.delta_score)).sum, (occ.map (·.delta_vdw)).sum,
            (occ.map (·.delta_elec)).sum, (occ.map (·.delta_desolv)).sum,
            (occ.map (·.delta_bsa)).sum, occ.length⟩ := by
  match occ with
  | [] => exact (hne rfl).elim
  | r :: rs =>
      show (r :: rs).foldl pushRow none = _
      rw [List.foldl_cons]
      show rs.foldl pushRow (some (initAcc r)) = _
      rw [foldl_pushRow_some rs (initAcc r)]
      simp [initAcc, Nat.add_comm]

/-- Lookup after folding one row into the inner dict. -/
theorem lookupA_updIdent (inner : List (String × Acc)) (r : ScanRow)
    (j : String) :
    lookupA (updIdent inner r) j =
      if identOf r = j then pushRow (lookupA inner j) r
      else lookupA inner j := by
  unfold updIdent
  rcases h : lookupA inner (identOf r) with _ | a
  · rw [lookupA_append]
    by_cases hj : identOf r = j
    · subst hj
      rw [h]
      simp [lookupA_cons, pushRow]
    · have hone : lookupA [(identOf r, initAcc r)] j = none := by
        simp [lookupA_cons, lookupA, hj]
      rw [hone, if_neg hj, Option.or_none]
  · show lookupA (inner.map fun p =>
        if p.1 = identOf r then (p.1, addAcc p.2 r) else p) j = _
    have hupd := lookupA_map_update inner (identOf r) (fun a => addAcc a r) j
    rw [hupd]
    by_cases hj : identOf r = j
    · subst hj
      simp [h, pushRow]
    · rw [if_neg (fun he => hj he.symm), if_neg hj]

/-- Lookup after folding a whole scan file into the inner dict: the rows
with the looked-up ident continue the fold for that ident. -/
theorem lookupA_foldl_updIdent (rows : List ScanRow) :
    ∀ (inner : List (String × Acc)) (j : String),
      lookupA (rows.foldl updIdent inner) j =
        (rows.filter fun r => identOf r = j).foldl pushRow
          (lookupA inner j) := by
  induction rows with
  | nil => intro inner j; simp
  | cons r rs ih =>
      intro inner j
      rw [List.foldl_cons, ih, List.filter_cons]
      by_cases hj : identOf r = j
      · rw [if_pos (by simpa using hj), List.foldl_cons,
          lookupA_updIdent, if_pos hj]
      · rw [if_neg (by simpa using hj), lookupA_updIdent, if_neg hj]

/-- `updIdent` keeps the inner keys distinct. -/
theorem nodup_updIdent (inner : List (String × Acc)) (r : ScanRow)
    (hnd : (inner.map Prod.fst).Nodup) :
    ((updIdent inner r).map Prod.fst).Nodup := by
  unfold updIdent
  rcases h : lookupA inner (identOf r) with _ | a
  · have hni : identOf r ∉ inner.map Prod.fst :=
      (lookupA_eq_none_iff inner (identOf r)).mp h
    simp [List.nodup_append, hnd, hni]
  · have hkeys : ((inner.map fun p =>
        if p.1 = identOf r then (p.1, addAcc p.2 r) else p).map Prod.fst) =
        inner.map Prod.fst := by
      rw [List.map_map]
      refine List.map_congr_left fun p _ => ?_
      by_cases hp : p.1 = identOf r <;> simp [hp]
    rw [hkeys]
    exact hnd

/-- Folding a scan file keeps the inner keys distinct. -/
theorem nodup_foldl_updIdent (rows : List ScanRow) :
    ∀ inner : List (String × Acc), (inner.map Prod.fst).Nodup →
      (((rows.foldl updIdent inner).map Prod.fst)).Nodup := by
  induction rows with
  | nil => intro inner h; simpa using h
  | cons r rs ih => intro inner h; exact ih _ (nodup_updIdent inner r h)

/-- The members of a cluster after one more model. -/
theorem clusterMembers_append_single (ms : List Model) (m : Model)
    (cid : String) :
    clusterMembers (ms ++ [m]) cid =
      clusterMembers ms cid ++ if clKey m = cid then [m] else [] := by
  unfold clusterMembers
  rw [List.filter_append]
  by_cases h : clKey m = cid <;> simp [h]

/-- The rows of a cluster after one more model. -/
theorem clusterRows_append_single (files : String → Option (List ScanRow))
    (ms : List Model) (m : Model) (cid : String) :
    clusterRows files (ms ++ [m]) cid =
      clusterRows files ms cid ++
        if clKey m = cid then (files (scanFileName m)).getD [] else [] := by
  unfold clusterRows
  rw [clusterMembers_append_single, List.flatMap_append]
  by_cases h : clKey m = cid <;> simp [h]

/-- The occurrences of an ident after one more model. -/
theorem identOcc_append_single (files : String → Option (List ScanRow))
    (ms : List Model) (m : Model) (cid ident : String) :
    identOcc files (ms ++ [m]) cid ident =
      identOcc files ms cid ident ++
        if clKey m = cid then
          ((files (scanFileName m)).getD []).filter
            fun r => identOf r = ident
        else [] := by
  unfold identOcc
  rw [clusterRows_append_single, List.filter_append]
  by_cases h : clKey m = cid <;> simp [h]

/-- An empty member list has no rows and no ident occurrences. -/
theorem identOcc_of_no_members (files : String → Option (List ScanRow))
    (ms : List Model) (cid : String) (h : clusterMembers ms cid = []) :
    ∀ ident, identOcc files ms cid ident = [] := by
  intro ident
  unfold identOcc clusterRows
  rw [h]
  simp

/-- A value-update at one key keeps the key list. -/
theorem keys_map_update {α : Type} (l : List (String × α)) (k : String)
    (g : α → α) :
    ((l.map fun p => if p.1 = k then (p.1, g p.2) else p).map Prod.fst) =
      l.map Prod.fst := by
  rw [List.map_map]
  refine List.map_congr_left fun p _ => ?_
  by_cases hp : p.1 = k <;> simp [hp]

/-- One pass of the per-model loop preserves the aggregation invariant,
extending the processed prefix by the model. -/
theorem processModel_ok_spec (files : String → Option (List ScanRow))
    (ms : List Model) (st st' : AState) (m : Model)
    (hpops : popsSpec ms st.cl_pops)
    (hscan : scanSpec files ms st.clt_scan)
    (hok : processModel files st m = .ok st') :
    popsSpec (ms ++ [m]) st'.cl_pops ∧
      scanSpec files (ms ++ [m]) st'.clt_scan := by
  obtain ⟨hnd, hiff, hchar⟩ := hscan
  simp only [processModel, registerModel] at hok
  rcases hf : files (scanFileName m) with _ | rows
  · simp [hf] at hok
  rcases hreg : lookupA st.clt_scan (clKey m) with _ | inner0
  case none =>
    simp only [hf, hreg, Except.ok.injEq] at hok
    subst hok
    dsimp only
    have members0 : clusterMembers ms (clKey m) = [] := by
      have h2 := hiff (clKey m)
      rw [hreg] at h2
      simpa using h2
    have kni : clKey m ∉ st.clt_scan.map Prod.fst :=
      (lookupA_eq_none_iff _ _).mp hreg
    have hupd := fun (j : String) => lookupA_map_update
      (st.clt_scan ++ [(clKey m, [])]) (clKey m)
      (fun inner => rows.foldl updIdent inner) j
    have hbase : ∀ j, lookupA (st.clt_scan ++ [(clKey m, [])]) j =
        (lookupA st.clt_scan j).or
          (if clKey m = j then some [] else none) := by
      intro j
      rw [lookupA_append]
      by_cases hj : clKey m = j <;> simp [lookupA_cons, lookupA, hj]
    have hkeys := keys_map_update (st.clt_scan ++ [(clKey m, [])])
      (clKey m) (fun inner => rows.foldl updIdent inner)
    constructor
    · intro cid
      rw [lookupA_append]
      by_cases hc : cid = clKey m
      · subst hc
        rw [hpops (clKey m), if_pos (by rw [members0]; rfl)]
        rw [clusterMembers_append_single, members0, if_pos rfl]
        simp [lookupA_cons, lookupA]
      · have hcm : ¬clKey m = cid := fun h => hc h.symm
        have hone : lookupA [(clKey m, 1)] cid = none := by
          simp [lookupA_cons, lookupA, hcm]
        rw [hone, Option.or_none, hpops cid, clusterMembers_append_single,
          if_neg hcm, List.append_nil]
    · refine ⟨?_, ?_, ?_⟩
      · rw [hkeys, List.map_append]
        simp [List.nodup_append, hnd, kni]
      · intro cid
        rw [hupd cid, clusterMembers_append_single]
        by_cases hc : cid = clKey m
        · subst hc
          rw [if_pos rfl, hbase (clKey m), hreg, if_pos rfl]
          simp
        · rw [if_neg hc, hbase cid,
            if_neg (fun h => hc (Eq.symm h)), Option.or_none,
            if_neg (fun h => hc (Eq.symm h)), List.append_nil]
          exact hiff cid
      · intro cid inner hin
        rw [hupd cid] at hin
        by_cases hc : cid = clKey m
        · subst hc
          rw [if_pos rfl, hbase (clKey m), hreg, if_pos rfl,
            Option.none_or, Option.map_some'] at hin
          obtain rfl := Option.some.inj hin
          constructor
          · exact nodup_foldl_updIdent rows [] (by simp)
          · intro ident
            rw [lookupA_foldl_updIdent rows [] ident,
              identOcc_append_single, if_pos rfl,
              identOcc_of_no_members files ms (clKey m) members0 ident, hf,
              List.nil_append]
            rfl
        · rw [if_neg hc, hbase cid,
            if_neg (fun h => hc (Eq.symm h)), Option.or_none] at hin
          obtain ⟨hnd2, hch2⟩ := hchar cid inner hin
          refine ⟨hnd2, fun ident => ?_⟩
          rw [identOcc_append_single, if_neg (fun h => hc (Eq.symm h)),
            List.append_nil]
          exact hch2 ident
  case some =>
    simp only [hf, hreg, Except.ok.injEq] at hok
    subst hok
    dsimp only
    have membersne : clusterMembers ms (clKey m) ≠ [] := by
      have h2 := hiff (clKey m)
      rw [hreg] at h2
      simpa using h2
    have hupd := fun (j : String) => lookupA_map_update st.clt_scan
      (clKey m) (fun inner => rows.foldl updIdent inner) j
    have hkeys := keys_map_update st.clt_scan (clKey m)
      (fun inner => rows.foldl updIdent inner)
    constructor
    · intro cid
      have hupd2 := lookupA_map_update st.cl_pops (clKey m)
        (fun n => n + 1) cid
      rw [hupd2]
      by_cases hc : cid = clKey m
      · subst hc
        rw [hpops (clKey m),
          if_neg (fun h => membersne (List.length_eq_zero.mp h)),
          clusterMembers_append_single, if_pos rfl]
        simp
      · rw [if_neg hc, hpops cid, clusterMembers_append_single,
          if_neg (fun h => hc (Eq.symm h)), List.append_nil]
    · refine ⟨?_, ?_, ?_⟩
      · rw [hkeys]
        exact hnd
      · intro cid
        rw [hupd cid, clusterMembers_append_single]
        by_cases hc : cid = clKey m
        · subst hc
          rw [if_pos rfl, hreg]
          simp
        · rw [if_neg hc, if_neg (fun h => hc (Eq.symm h)), List.append_nil]
          exact hiff cid
      · intro cid inner hin
        rw [hupd cid] at hin
        by_cases hc : cid = clKey m
        · subst hc
          rw [if_pos rfl, hreg, Option.map_some'] at hin
          obtain rfl := Option.some.inj hin
          obtain ⟨hnd0, hch0⟩ := hchar (clKey m) inner0 hreg
          constructor
          · exact nodup_foldl_updIdent rows inner0 hnd0
          · intro ident
            rw [lookupA_foldl_updIdent rows inner0 ident, hch0 ident,
              identOcc_append_single, if_pos rfl, hf, accOf_append]
            rfl
        · rw [if_neg hc] at hin
          obtain ⟨hnd2, hch2⟩ := hchar cid inner hin
          refine ⟨hnd2, fun ident => ?_⟩
          rw [identOcc_append_single, if_neg (fun h => hc (Eq.symm h)),
            List.append_nil]
          exact hch2 ident

/-- The invariant holds for the empty prefix and the empty state. -/
theorem popsSpec_nil : popsSpec [] [] := by
  intro cid
  simp [lookupA, clusterMembers]

/-- The scan invariant holds for the empty prefix and the empty state. -/
theorem scanSpec_nil (files : String → Option (List ScanRow)) :
    scanSpec files [] [] := by
  refine ⟨by simp, fun cid => by simp [lookupA, clusterMembers],
    fun cid inner h => ?_⟩
  simp [lookupA] at h

/-- Folding the whole model list from an invariant state lands in an
invariant state (or fails on a missing file). -/
theorem foldlM_processModel_spec (files : String → Option (List ScanRow)) :
    ∀ (todo done : List Model) (st stf : AState),
      popsSpec done st.cl_pops → scanSpec files done st.clt_scan →
      todo.foldlM (processModel files) st = .ok stf →
      popsSpec (done ++ todo) stf.cl_pops ∧
        scanSpec files (done ++ todo) stf.clt_scan := by
  intro todo
  induction todo with
  | nil =>
      intro done st stf hp hs hok
      have h2 : Except.ok st = Except.ok stf := hok
      obtain rfl := Except.ok.inj h2
      simpa using And.intro hp hs
  | cons m rest ih =>
      intro done st stf hp hs hok
      rw [List.foldlM_cons] at hok
      rcases hpm : processModel files st m with e | st1
      · rw [hpm] at hok
        have h2 : (Except.error e : Except String AState) = .ok stf := hok
        simp at h2
      · rw [hpm] at hok
        have hok2 : rest.foldlM (processModel files) st1 = .ok stf := hok
        obtain ⟨hp1, hs1⟩ := processModel_ok_spec files done st st1 m hp hs hpm
        have hmain := ih (done ++ [m]) st1 stf hp1 hs1 hok2
        rwa [List.append_assoc, List.singleton_append] at hmain

/-- Projections of a built summary row. -/
theorem mkOutRow_full_resname (pop : Nat) (p : String × Acc) :
    (mkOutRow pop p).full_resname = p.1 := rfl

/-- The averaged `delta_score` of a built summary row. -/
theorem mkOutRow_delta_score (pop : Nat) (p : String × Acc) :
    (mkOutRow pop p).delta_score = p.2.delta_score / (p.2.frac_pr : ℚ) := rfl

/-- The averaged `delta_vdw` of a built summary row. -/
theorem mkOutRow_delta_vdw (pop : Nat) (p : String × Acc) :
    (mkOutRow pop p).delta_vdw = p.2.delta_vdw / (p.2.frac_pr : ℚ) := rfl

/-- The averaged `delta_elec` of a built summary row. -/
theorem mkOutRow_delta_elec (pop : Nat) (p : String × Acc) :
    (mkOutRow pop p).delta_elec = p.2.delta_elec / (p.2.frac_pr : ℚ) := rfl

/-- The averaged `delta_desolv` of a built summary row. -/
theorem mkOutRow_delta_desolv (pop : Nat) (p : String × Acc) :
    (mkOutRow pop p).delta_desolv =
      p.2.delta_desolv / (p.2.frac_pr : ℚ) := rfl

/-- The averaged `delta_bsa` of a built summary row. -/
theorem mkOutRow_delta_bsa (pop : Nat) (p : String × Acc) :
    (mkOutRow pop p).delta_bsa = p.2.delta_bsa / (p.2.frac_pr : ℚ) := rfl

/-- The `frac_pres` of a built summary row. -/
theorem mkOutRow_frac_pres (pop : Nat) (p : String × Acc) :
    (mkOutRow pop p).frac_pres = (p.2.frac_pr : ℚ) / (pop : ℚ) := rfl

/-- C1: when the aggregation succeeds, every row of every written cluster
summary averages each delta term over that key's occurrence count (the
number of member rows carrying the key), while `frac_pres` divides the
occurrence count by the cluster's total structure population — two distinct
denominators. -/
theorem alascan_cluster_average (files : String → Option (List ScanRow))
    (models : List Model) (st : AState)
    (hrun : models.foldlM (processModel files) ⟨[], []⟩ = .ok st) :
    alascan_cluster_analysis files models = .ok (outputOf st) ∧
    ∀ co ∈ outputOf st, ∀ row ∈ co.rows,
      identOcc files models co.cl_id row.full_resname ≠ [] ∧
      row.delta_score =
        ((identOcc files models co.cl_id row.full_resname).map
            (·.delta_score)).sum /
          ((identOcc files models co.cl_id row.full_resname).length : ℚ) ∧
      row.delta_vdw =
        ((identOcc files models co.cl_id row.full_resname).map
            (·.delta_vdw)).sum /
          ((identOcc files models co.cl_id row.full_resname).length : ℚ) ∧
      row.delta_elec =
        ((identOcc files models co.cl_id row.full_resname).map
            (·.delta_elec)).sum /
          ((identOcc files models co.cl_id row.full_resname).length : ℚ) ∧
      row.delta_desolv =
        ((identOcc files models co.cl_id row.full_resname).map
            (·.delta_desolv)).sum /
          ((identOcc files models co.cl_id row.full_resname).length : ℚ) ∧
      row.delta_bsa =
        ((identOcc files models co.cl_id row.full_resname).map
            (·.delta_bsa)).sum /
          ((identOcc files models co.cl_id row.full_resname).length : ℚ) ∧
      row.frac_pres =
        ((identOcc files models co.cl_id row.full_resname).length : ℚ) /
          ((clusterMembers models co.cl_id).length : ℚ) := by
  constructor
  · unfold alascan_cluster_analysis
    rw [hrun]
    rfl
  obtain ⟨hpops, hscan⟩ := foldlM_processModel_spec files models []
    ⟨[], []⟩ st popsSpec_nil (scanSpec_nil files) hrun
  rw [List.nil_append] at hpops hscan
  obtain ⟨hnd, hiff, hchar⟩ := hscan
  intro co hco row hrow
  unfold outputOf at hco
  obtain ⟨p, hp, rfl⟩ := List.mem_map.mp hco
  dsimp only at hrow ⊢
  have hrow2 : row ∈ p.2.map
      (mkOutRow ((lookupA st.cl_pops p.1).getD 0)) :=
    (List.perm_insertionSort _ _).mem_iff.mp hrow
  obtain ⟨entry, hentry, rfl⟩ := List.mem_map.mp hrow2
  have hlook : lookupA st.clt_scan p.1 = some p.2 :=
    lookupA_of_mem_nodup st.clt_scan hnd p hp
  obtain ⟨hnd2, hch2⟩ := hchar p.1 p.2 hlook
  have hocc : accOf (identOcc files models p.1 entry.1) = some entry.2 := by
    rw [← hch2 entry.1]
    exact lookupA_of_mem_nodup p.2 hnd2 entry hentry
  have hne : identOcc files models p.1 entry.1 ≠ [] := by
    intro h
    rw [h] at hocc
    simp [accOf] at hocc
  have hval := accOf_of_ne_nil (identOcc files models p.1 entry.1) hne
  rw [hval] at hocc
  have hacc := (Option.some.inj hocc).symm
  have hmem : clusterMembers models p.1 ≠ [] := by
    refine (hiff p.1).mp ?_
    rw [hlook]
    rfl
  have hpop : (lookupA st.cl_pops p.1).getD 0 =
      (clusterMembers models p.1).length := by
    rw [hpops p.1,
      if_neg (fun h => hmem (List.length_eq_zero.mp h))]
    rfl
  rw [mkOutRow_full_resname]
  refine ⟨hne, ?_, ?_, ?_, ?_, ?_, ?_⟩
  · rw [mkOutRow_delta_score, hacc]
  · rw [mkOutRow_delta_vdw, hacc]
  · rw [mkOutRow_delta_elec, hacc]
  · rw [mkOutRow_delta_desolv, hacc]
  · rw [mkOutRow_delta_bsa, hacc]
  · rw [mkOutRow_frac_pres, hacc, hpop]

/-- C1 (witness): two models in cluster `"1"`, the key `A-12-ALA` present
with `delta_score` 2.0 in the first member's scan file only. -/
theorem alascan_cluster_average_witness :
    alascan_cluster_analysis
        (fun n =>
          if n = "scan_m1.csv" then
            some [⟨"A", 12, "ALA", 2, 0, 0, 0, 0⟩]
          else if n = "scan_m2.csv" then some [] else none)
        [⟨some "1", "m1"⟩, ⟨some "1", "m2"⟩] =
      .ok (outputOf ⟨[("1", [("A-12-ALA", ⟨2, 0, 0, 0, 0, 1⟩)])],
        [("1", 2)]⟩) :=
  (alascan_cluster_average _ _ _ (by decide)).1

end Haddock
